import Mathlib

/-!
# Verification of the actas synchronization engine

Shallow embedding of the synchronization core of the `eleccioneshn2025`
repository: the resume/skip cursor and per-mesa download state machine of
`src/utils/download_actas.py`, the change detector of `src/fetch_mesas.py`,
the reconciliation pass of `src/utils/mark_existing_actas.py`, and the exit
behaviour of `src/utils/download_actas.py` / `src/utils/monitor_actas.py`.

Conventions of the embedding:
* Python strings are Lean `String` (both orders compare code points
  lexicographically);
* content hashes are abstract values (`Nat`), compared for equality exactly
  where the code compares hex digests;
* JSON records are structures whose fields are the keys the code reads;
  a field read with `dict.get` and no default is an `Option`;
* filesystem effects are reified as a list of `FSOp` operations, interpreted
  over a map from paths to file contents.
-/

namespace ActasSync

/-! ## Hierarchical keys (download_actas.py)

A record is addressed by the tuple (department, municipio, zona, centro,
mesa); the mesa component is already in string form (the code applies
`str(...)` before comparing). -/

/-- A fully specified hierarchical key, as compared by
`should_skip_based_on_resume` in `src/utils/download_actas.py`. -/
structure Key where
  dept : String
  muni : String
  zona : String
  centro : String
  mesa : String
  deriving DecidableEq, Repr

/-- A parsed resume point (`parse_resume_point`): each component is either a
string or unspecified (`None`). -/
structure ResumePoint where
  dept : Option String
  muni : Option String
  zona : Option String
  centro : Option String
  mesa : Option String
  deriving DecidableEq, Repr

/-- Python truthiness of a resume component: `None` and the empty string are
falsy, every other string is truthy (the guards `if resume_dept:` etc. in
`should_skip_based_on_resume`). -/
def truthy : Option String → Bool
  | none => false
  | some s => !s.isEmpty

/-- One level of the comparison cascade of `should_skip_based_on_resume`
(lines 229-258): skip when the record's component is below the specified
resume component, stop skipping when above, fall through to the next level
when equal or when the resume component is unspecified/empty. -/
def levelSkip : Option String → String → Bool → Bool
  | none, _, next => next
  | some r, v, next =>
    if r.isEmpty then next
    else if v < r then true
    else if r < v then false
    else next

/-- The mesa level of the cascade (lines 261-270): as `levelSkip`, but on
equality the record *is* skipped (the resume point itself is treated as
already downloaded), and with the resume mesa unspecified the function
returns `false` ("we've reached the resume point"). -/
def mesaSkip : Option String → String → Bool
  | none, _ => false
  | some r, v =>
    if r.isEmpty then false
    else if v < r then true
    else if r < v then false
    else true

/-- `should_skip_based_on_resume` of `src/utils/download_actas.py`
(lines 218-270), with the record's components gathered into a `Key` and the
optional resume point into an `Option ResumePoint` (`None` when no resume
point was given). -/
def should_skip_based_on_resume (k : Key) (rp : Option ResumePoint) : Bool :=
  match rp with
  | none => false
  | some r =>
    levelSkip r.dept k.dept <|
    levelSkip r.muni k.muni <|
    levelSkip r.zona k.zona <|
    levelSkip r.centro k.centro <|
    mesaSkip r.mesa k.mesa

/-! ### Lexicographic order on keys (specification side)

The spec's total order on `HierarchicalKey` is lexicographic
component-by-component; we realise it through nested `Lex` pairs so that
reflexivity/transitivity come from the `LinearOrder` instance. -/

/-- The key as a nested lexicographic tuple. -/
def Key.toLexTuple (k : Key) :
    Lex (String × Lex (String × Lex (String × Lex (String × String)))) :=
  toLex (k.dept, toLex (k.muni, toLex (k.zona, toLex (k.centro, k.mesa))))

/-- Lexicographic component-by-component comparison of two keys, the order of
the spec's data model. -/
def keyLe (a b : Key) : Prop :=
  a.toLexTuple ≤ b.toLexTuple

instance (a b : Key) : Decidable (keyLe a b) := by
  unfold keyLe
  infer_instance

theorem keyLe_trans {a b c : Key} (h₁ : keyLe a b) (h₂ : keyLe b c) :
    keyLe a c :=
  le_trans h₁ h₂

/-- The key a fully specified resume point denotes. -/
def ResumePoint.toKey (r : ResumePoint) : Key :=
  ⟨r.dept.getD "", r.muni.getD "", r.zona.getD "", r.centro.getD "", r.mesa.getD ""⟩

/-- One lexicographic level, unfolded into the three-way comparison the code
performs. -/
theorem lex_le_unfold {α β : Type} [LinearOrder α] [LinearOrder β]
    (v r : α) (x y : β) :
    decide (toLex (v, x) ≤ toLex (r, y)) =
      (if v < r then true else if r < v then false else decide (x ≤ y)) := by
  rcases lt_trichotomy v r with h | h | h
  · simp [Prod.Lex.le_iff, h]
  · simp [Prod.Lex.le_iff, h, lt_irrefl]
  · simp [Prod.Lex.le_iff, h, lt_asymm h, (ne_of_gt h)]

/-- The innermost comparison of the cascade decides `≤` on the mesa
component. -/
theorem mesa_level_le (v r : String) :
    (if v < r then true else if r < v then false else true) = decide (v ≤ r) := by
  rcases lt_trichotomy v r with h | h | h
  · simp [h, le_of_lt h]
  · simp [h, le_of_eq h]
  · simp [lt_asymm h, h, not_le.mpr h]

/-- With every component of the resume point specified and non-empty, the
skip predicate decides exactly `key ≤ resume point` in the lexicographic
order. -/
theorem should_skip_eq_keyLe (r : ResumePoint)
    (hd : truthy r.dept = true) (hm : truthy r.muni = true)
    (hz : truthy r.zona = true) (hc : truthy r.centro = true)
    (hme : truthy r.mesa = true) (k : Key) :
    should_skip_based_on_resume k (some r) = decide (keyLe k r.toKey) := by
  obtain ⟨d, hd', hdne⟩ : ∃ d, r.dept = some d ∧ d.isEmpty = false := by
    cases h : r.dept with
    | none => rw [h] at hd; simp [truthy] at hd
    | some d => exact ⟨d, rfl, by rw [h] at hd; simpa [truthy] using hd⟩
  obtain ⟨m, hm', hmne⟩ : ∃ m, r.muni = some m ∧ m.isEmpty = false := by
    cases h : r.muni with
    | none => rw [h] at hm; simp [truthy] at hm
    | some m => exact ⟨m, rfl, by rw [h] at hm; simpa [truthy] using hm⟩
  obtain ⟨z, hz', hzne⟩ : ∃ z, r.zona = some z ∧ z.isEmpty = false := by
    cases h : r.zona with
    | none => rw [h] at hz; simp [truthy] at hz
    | some z => exact ⟨z, rfl, by rw [h] at hz; simpa [truthy] using hz⟩
  obtain ⟨c, hc', hcne⟩ : ∃ c, r.centro = some c ∧ c.isEmpty = false := by
    cases h : r.centro with
    | none => rw [h] at hc; simp [truthy] at hc
    | some c => exact ⟨c, rfl, by rw [h] at hc; simpa [truthy] using hc⟩
  obtain ⟨me, hme', hmene⟩ : ∃ me, r.mesa = some me ∧ me.isEmpty = false := by
    cases h : r.mesa with
    | none => rw [h] at hme; simp [truthy] at hme
    | some me => exact ⟨me, rfl, by rw [h] at hme; simpa [truthy] using hme⟩
  simp only [should_skip_based_on_resume, hd', hm', hz', hc', hme',
    levelSkip, mesaSkip, hdne, hmne, hzne, hcne, hmene, Bool.false_eq_true,
    if_false, keyLe, Key.toLexTuple, ResumePoint.toKey, Option.getD_some]
  rw [lex_le_unfold, lex_le_unfold, lex_le_unfold, lex_le_unfold,
    mesa_level_le]
  split_ifs <;> rfl

/-- On a list that is sorted for `R`, filtering out a downward-closed
predicate is the same as dropping its initial run. -/
theorem filter_not_eq_dropWhile {α : Type} (p : α → Bool) (R : α → α → Prop)
    (mono : ∀ a b, R a b → p b = true → p a = true) :
    ∀ l : List α, l.Pairwise R →
      l.filter (fun x => !p x) = l.dropWhile p := by
  intro l hl
  induction l with
  | nil => rfl
  | cons x xs ih =>
    rcases List.pairwise_cons.mp hl with ⟨hx, hxs⟩
    cases hp : p x with
    | true =>
      simp only [List.filter_cons, List.dropWhile_cons, hp, Bool.not_true,
        if_true]
      exact ih hxs
    | false =>
      simp only [List.filter_cons, List.dropWhile_cons, hp, Bool.not_false,
        if_false, if_true]
      congr 1
      refine List.filter_eq_self.mpr ?_
      intro y hy
      cases hpy : p y with
      | false => rfl
      | true => exact absurd (mono x y (hx y hy) hpy) (by simp [hp])

/-- C1: with a resume point whose five components are all specified,
`should_skip_based_on_resume` skips a record iff its key is less than or
equal to the resume point under lexicographic component-by-component
comparison; consequently, on any sorted key sequence the processed records
are exactly the suffix obtained by dropping every key that is ≤ the resume
point — the suffix starting at the first key ≥ the resume point, with the
key exactly equal to the resume point itself also skipped. -/
theorem resume_skip_processes_suffix (r : ResumePoint)
    (hd : truthy r.dept = true) (hm : truthy r.muni = true)
    (hz : truthy r.zona = true) (hc : truthy r.centro = true)
    (hme : truthy r.mesa = true) :
    (∀ k, should_skip_based_on_resume k (some r) = decide (keyLe k r.toKey)) ∧
    (∀ l : List Key, l.Pairwise keyLe →
      (l.filter fun k => !should_skip_based_on_resume k (some r)) =
        l.dropWhile fun k => decide (keyLe k r.toKey)) := by
  have hs := should_skip_eq_keyLe r hd hm hz hc hme
  refine ⟨hs, ?_⟩
  intro l hl
  have hfc : (l.filter fun k => !should_skip_based_on_resume k (some r)) =
      l.filter fun k => !(decide (keyLe k r.toKey)) := by
    apply List.filter_congr
    intro k _
    rw [hs k]
  rw [hfc]
  refine filter_not_eq_dropWhile _ keyLe ?_ l hl
  intro a b hR hb
  simp only [decide_eq_true_eq] at hb ⊢
  exact keyLe_trans hR hb

/-- A concrete fully specified resume point, for the C1 witness. -/
def rpEx : ResumePoint :=
  ⟨some ("01"), some ("001"), some ("01"), some ("015"), some ("911")⟩

/-- Witness for C1: the hypotheses of `resume_skip_processes_suffix` hold at
the concrete resume point 01-001-01-015-911. -/
theorem resume_skip_processes_suffix_witness :
    (truthy rpEx.dept = true ∧ truthy rpEx.muni = true ∧
     truthy rpEx.zona = true ∧ truthy rpEx.centro = true ∧
     truthy rpEx.mesa = true) ∧
    ((∀ k, should_skip_based_on_resume k (some rpEx) =
        decide (keyLe k rpEx.toKey)) ∧
     (∀ l : List Key, l.Pairwise keyLe →
       (l.filter fun k => !should_skip_based_on_resume k (some rpEx)) =
         l.dropWhile fun k => decide (keyLe k rpEx.toKey))) :=
  ⟨⟨rfl, rfl, rfl, rfl, rfl⟩,
   resume_skip_processes_suffix rpEx rfl rfl rfl rfl rfl⟩

/-! ## Change detection (fetch_mesas.py)

A `Mesa` is one table record of a per-centro `mesas.json` snapshot, with the
fields `compare_mesas` reads. `nombre_archivo` is the remote content URL
(read with default `''` on both sides of the comparison, so it is kept as a
plain string); the three status flags are read with `dict.get` and no
default, so they are `Option Bool`; `needs_download` is absent on freshly
fetched records and set by the detector. -/

structure Mesa where
  numero : Nat
  nombre_archivo : String
  publicada : Option Bool
  escrutado : Option Bool
  digitalizado : Option Bool
  needs_download : Option Bool
  deriving DecidableEq, Repr

/-- Set the `needs_download` annotation of a record. -/
def setNeeds (m : Mesa) (b : Bool) : Mesa :=
  { m with needs_download := some b }

/-- The lookup the Python dict comprehension
`{mesa['numero']: mesa for mesa in old_mesas}` builds: iterating in order,
a later record with the same `numero` overwrites an earlier one, so lookup
returns the *last* matching record. -/
def dictLookup (old : List Mesa) (n : Nat) : Option Mesa :=
  old.reverse.find? fun o => o.numero == n

/-- The field comparison of `compare_mesas` (lines 52-61 of
`src/fetch_mesas.py`): URL or any of the three status flags differ. -/
def fieldsChanged (o m : Mesa) : Bool :=
  (o.nombre_archivo != m.nombre_archivo) ||
  (o.publicada != m.publicada) ||
  (o.escrutado != m.escrutado) ||
  (o.digitalizado != m.digitalizado)

/-- `compare_mesas` of `src/fetch_mesas.py` (lines 29-65): with no previous
snapshot (`None` or the empty list — both falsy) every record needs
download; otherwise each new record is joined against the dict of old
records by `numero` and flagged according to `fieldsChanged`. -/
def compare_mesas (old? : Option (List Mesa)) (new : List Mesa) : List Mesa :=
  match old? with
  | none => new.map fun m => setNeeds m true
  | some old =>
    if old.isEmpty then new.map fun m => setNeeds m true
    else
      new.map fun m =>
        match dictLookup old m.numero with
        | none => setNeeds m true
        | some o => setNeeds m (fieldsChanged o m)

/-- Specification-side decision, following the spec's words: absent snapshot
or absent `table_number` ⇒ needs acquisition; present in both ⇒ needs
acquisition iff a compared field differs — with "the old record" read as the
first record of the previous snapshot carrying that `table_number`. -/
def needsAcqSpec (old? : Option (List Mesa)) (m : Mesa) : Bool :=
  match old? with
  | none => true
  | some old =>
    match old.find? (fun o => o.numero == m.numero) with
    | none => true
    | some o => fieldsChanged o m

/-- On a list whose keys are distinct, searching from the back finds the same
record as searching from the front. -/
theorem find_reverse_eq_find {α : Type} (key : α → Nat) :
    ∀ (l : List α) (_ : (l.map key).Nodup) (n : Nat),
      l.reverse.find? (fun o => key o == n) = l.find? (fun o => key o == n) := by
  intro l
  induction l with
  | nil => intro _ n; rfl
  | cons x xs ih =>
    intro hnd n
    have hnd' := hnd
    simp only [List.map_cons, List.nodup_cons] at hnd'
    obtain ⟨hx, hxs⟩ := hnd'
    simp only [List.reverse_cons, List.find?_append, List.find?_cons]
    cases hkey : (key x == n) with
    | true =>
      have hnone : xs.reverse.find? (fun o => key o == n) = none := by
        refine List.find?_eq_none.mpr ?_
        intro y hy
        simp only [beq_iff_eq]
        intro hyn
        refine hx ?_
        have hkk : key y = key x := by
          rw [hyn]
          exact (beq_iff_eq.mp hkey).symm
        exact hkk ▸ List.mem_map_of_mem key (List.mem_reverse.mp hy)
      simp [hnone, hkey, List.find?]
    | false =>
      rw [ih hxs n]
      cases hfind : xs.find? (fun o => key o == n) with
      | none => simp [List.find?, hkey]
      | some v => simp [List.find?, hkey]

/-- C2: the change detector returns the new list with `needs_download` set
exactly as the spec describes — everything needs acquisition when the
previous snapshot is absent; a record whose `numero` is absent from the
previous snapshot needs acquisition; a record present in both needs
acquisition iff its URL or one of the published/tallied/digitized flags
differs, and otherwise gets `needs_download = false`; in particular a URL
change alone forces `needs_download = true`. Stated for previous snapshots
with distinct table numbers (the duplicate case is settled separately). -/
theorem compare_mesas_spec (old new : List Mesa)
    (hnd : (old.map Mesa.numero).Nodup) :
    compare_mesas none new = (new.map fun m => setNeeds m true) ∧
    compare_mesas (some old) new =
      (new.map fun m => setNeeds m (needsAcqSpec (some old) m)) ∧
    (∀ m, old.find? (fun o => o.numero == m.numero) = none →
      needsAcqSpec (some old) m = true) ∧
    (∀ m o, old.find? (fun o => o.numero == m.numero) = some o →
      o.nombre_archivo ≠ m.nombre_archivo → needsAcqSpec (some old) m = true) ∧
    (∀ m o, old.find? (fun o => o.numero == m.numero) = some o →
      (needsAcqSpec (some old) m = true ↔
        (o.nombre_archivo ≠ m.nombre_archivo ∨ o.publicada ≠ m.publicada ∨
         o.escrutado ≠ m.escrutado ∨ o.digitalizado ≠ m.digitalizado))) := by
  refine ⟨rfl, ?_, ?_, ?_, ?_⟩
  · cases hemp : old.isEmpty with
    | true =>
      have hnil : old = [] := by
        cases old with
        | nil => rfl
        | cons a as => simp [List.isEmpty] at hemp
      subst hnil
      simp [compare_mesas, needsAcqSpec, List.find?]
    | false =>
      have hdict : ∀ n, dictLookup old n = old.find? fun o => o.numero == n :=
        fun n => find_reverse_eq_find Mesa.numero old hnd n
      simp only [compare_mesas, hemp, Bool.false_eq_true, if_false]
      refine congrArg (fun f => new.map f) (funext fun m => ?_)
      rw [hdict m.numero]
      cases hfo : old.find? fun o => o.numero == m.numero with
      | none => simp [needsAcqSpec, hfo]
      | some o => simp [needsAcqSpec, hfo]
  · intro m hfind
    simp [needsAcqSpec, hfind]
  · intro m o hfind hne
    simp [needsAcqSpec, hfind, fieldsChanged, Bool.or_eq_true, bne_iff_ne]
    tauto
  · intro m o hfind
    simp [needsAcqSpec, hfind, fieldsChanged, Bool.or_eq_true, bne_iff_ne,
      or_assoc]

/-- A concrete previous snapshot for the C2 witness. -/
def oldMesasEx : List Mesa :=
  [⟨1, "url-a", some true, some false, none, some false⟩,
   ⟨2, "url-b", some true, some true, some true, some true⟩]

/-- A concrete fresh snapshot for the C2 witness: table 1 with a changed
URL, table 3 new. -/
def newMesasEx : List Mesa :=
  [⟨1, "url-c", some true, some false, none, none⟩,
   ⟨3, "url-d", none, none, none, none⟩]

/-- Witness for C2 at concrete snapshots with distinct old table numbers. -/
theorem compare_mesas_spec_witness :
    (oldMesasEx.map Mesa.numero).Nodup ∧
    (compare_mesas none newMesasEx =
      (newMesasEx.map fun m => setNeeds m true) ∧
    compare_mesas (some oldMesasEx) newMesasEx =
      (newMesasEx.map fun m => setNeeds m (needsAcqSpec (some oldMesasEx) m)) ∧
    (∀ m, oldMesasEx.find? (fun o => o.numero == m.numero) = none →
      needsAcqSpec (some oldMesasEx) m = true) ∧
    (∀ m o, oldMesasEx.find? (fun o => o.numero == m.numero) = some o →
      o.nombre_archivo ≠ m.nombre_archivo →
      needsAcqSpec (some oldMesasEx) m = true) ∧
    (∀ m o, oldMesasEx.find? (fun o => o.numero == m.numero) = some o →
      (needsAcqSpec (some oldMesasEx) m = true ↔
        (o.nombre_archivo ≠ m.nombre_archivo ∨ o.publicada ≠ m.publicada ∨
         o.escrutado ≠ m.escrutado ∨ o.digitalizado ≠ m.digitalizado)))) :=
  ⟨by decide, compare_mesas_spec oldMesasEx newMesasEx (by decide)⟩

/-- Two old records sharing `numero = 1`: the first matches the new record's
URL, the second does not. -/
def dupOld1 : Mesa := ⟨1, "url-a", some true, some true, some true, some true⟩

/-- The later duplicate of table 1 in the previous snapshot. -/
def dupOld2 : Mesa := ⟨1, "url-b", some true, some true, some true, some true⟩

/-- A fresh record for table 1 agreeing with `dupOld1` on every compared
field. -/
def dupNew : Mesa := ⟨1, "url-a", some true, some true, some true, none⟩

/-- C5 counterexample: with duplicates in the previous snapshot the detector
does *not* treat the first occurrence as authoritative — the new record
agrees with the first old record on every compared field (so the claim
requires `needs_download = false`), yet `compare_mesas` flags it `true`,
because the Python dict comprehension keeps the last duplicate. -/
theorem compare_mesas_first_occurrence_cex :
    fieldsChanged dupOld1 dupNew = false ∧
    (compare_mesas (some [dupOld1, dupOld2]) [dupNew]).map Mesa.needs_download
      = [some true] ∧
    (compare_mesas (some [dupOld1, dupOld2]) [dupNew]).map Mesa.needs_download
      ≠ [some (fieldsChanged dupOld1 dupNew)] := by
  decide

/-- A nonempty previous snapshot makes `compare_mesas` decide every record
through the duplicate-collapsing dict lookup. -/
theorem compare_mesas_nonempty (old new : List Mesa) (h : old ≠ []) :
    compare_mesas (some old) new =
      (new.map fun x => setNeeds x
        (match dictLookup old x.numero with
         | none => true
         | some w => fieldsChanged w x)) := by
  have hemp : old.isEmpty = false := by
    cases old with
    | nil => exact absurd rfl h
    | cons a as => rfl
  simp only [compare_mesas, hemp, Bool.false_eq_true, if_false]
  refine congrArg (fun f => new.map f) (funext fun x => ?_)
  cases dictLookup old x.numero with
  | none => rfl
  | some w => rfl

/-- C5 amended: when the previous snapshot contains duplicate
`table_number`s, the change detector treats the *last* occurrence of each
`table_number` as the authoritative old record (the dict comprehension
`{mesa['numero']: mesa for mesa in old_mesas}` lets later records overwrite
earlier ones), and no warning is logged. -/
theorem compare_mesas_last_occurrence (pre post : List Mesa) (o m : Mesa)
    (new : List Mesa) (hnum : m.numero = o.numero)
    (hpost : ∀ p ∈ post, p.numero ≠ o.numero) :
    dictLookup (pre ++ o :: post) m.numero = some o ∧
    compare_mesas (some (pre ++ o :: post)) new =
      (new.map fun x => setNeeds x
        (match dictLookup (pre ++ o :: post) x.numero with
         | none => true
         | some w => fieldsChanged w x)) ∧
    compare_mesas (some (pre ++ o :: post)) [m] =
      [setNeeds m (fieldsChanged o m)] := by
  have h1 : dictLookup (pre ++ o :: post) m.numero = some o := by
    unfold dictLookup
    rw [List.reverse_append, List.reverse_cons, List.find?_append,
      List.find?_append]
    have hpostnone :
        post.reverse.find? (fun w => w.numero == m.numero) = none := by
      refine List.find?_eq_none.mpr ?_
      intro y hy
      simp only [beq_iff_eq]
      intro hyn
      exact hpost y (List.mem_reverse.mp hy) (hyn.trans hnum)
    have ho : List.find? (fun w => w.numero == m.numero) [o] = some o := by
      simp [List.find?, hnum]
    simp [hpostnone, ho]
  have h2 := compare_mesas_nonempty (pre ++ o :: post) new (by simp)
  refine ⟨h1, h2, ?_⟩
  rw [compare_mesas_nonempty (pre ++ o :: post) [m] (by simp)]
  simp only [List.map_cons, List.map_nil, h1]

/-- Witness for the amended C5 at a concrete snapshot whose last record for
table 1 is `dupOld2`. -/
theorem compare_mesas_last_occurrence_witness :
    (dupNew.numero = dupOld2.numero ∧
     (∀ p ∈ ([] : List Mesa), p.numero ≠ dupOld2.numero)) ∧
    (dictLookup ([dupOld1] ++ dupOld2 :: []) dupNew.numero = some dupOld2 ∧
     compare_mesas (some ([dupOld1] ++ dupOld2 :: [])) [dupNew] =
       ([dupNew].map fun x => setNeeds x
         (match dictLookup ([dupOld1] ++ dupOld2 :: []) x.numero with
          | none => true
          | some w => fieldsChanged w x)) ∧
     compare_mesas (some ([dupOld1] ++ dupOld2 :: [])) [dupNew] =
       [setNeeds dupNew (fieldsChanged dupOld2 dupNew)]) :=
  ⟨⟨rfl, by simp⟩,
   compare_mesas_last_occurrence [dupOld1] [] dupOld2 dupNew [dupNew] rfl
     (by simp)⟩

/-! ## The per-acta download state machine (download_actas.py)

`process_mesas_file` (lines 44-197 of `src/utils/download_actas.py`) walks
the records of one `mesas.json` and, per record, runs a
skip/register/download/commit step against the registry, the live artifact
and the history area. We model the state of a single acta (one fixed
hierarchical key — distinct keys use distinct filenames, registry keys and
history names, so their states are independent) and the loop body as a step
function that also emits the filesystem operations it performs. -/

/-- The filename an acta is stored under:
`DEPT-MUNI-ZONA-CENTRO-MESA.pdf` (line 72). -/
def filename (k : Key) : String :=
  k.dept ++ "-" ++ k.muni ++ "-" ++ k.zona ++ "-" ++ k.centro ++ "-" ++
  k.mesa ++ ".pdf"

/-- The live artifact path, relative to the actas directory (line 76). -/
def livePath (k : Key) : String := filename k

/-- The staging path of a download: the filename with `.tmp` appended
(line 77). -/
def tempPath (k : Key) : String := filename k ++ ".tmp"

/-- The history file a superseded version is archived under (lines 147-153):
`DEPT-MUNI-ZONA-CENTRO/{MESA}_v{version}_{timestamp}.pdf`. -/
def histPath (k : Key) (version : Nat) (stamp : String) : String :=
  k.dept ++ "-" ++ k.muni ++ "-" ++ k.zona ++ "-" ++ k.centro ++ "/" ++
  k.mesa ++ "_v" ++ toString version ++ "_" ++ stamp ++ ".pdf"

/-- The key rendered as the `last_processed` resume string (line 75). -/
def keyStr (k : Key) : String :=
  k.dept ++ "-" ++ k.muni ++ "-" ++ k.zona ++ "-" ++ k.centro ++ "-" ++ k.mesa

/-- One registry entry — the dict stored under `registry[filename]`
(lines 99-114 / 169-184). The `mesa_info` code fields equal the components
of the fixed key; the three status flags are kept. -/
structure RegEntry where
  hash : Nat
  url : String
  version : Nat
  lastUpdated : String
  publicada : Option Bool
  escrutado : Option Bool
  digitalizado : Option Bool
  deriving DecidableEq, Repr

/-- The counters of the `stats` dict touched by the per-mesa loop. -/
structure Stats where
  downloaded : Nat
  updatedFiles : Nat
  newFiles : Nat
  unchangedFiles : Nat
  skipped : Nat
  failed : Nat
  updatedUrls : Nat
  lastProcessed : Option String
  deriving DecidableEq, Repr

/-- All counters zero, nothing processed yet (lines 304-315). -/
def Stats.init : Stats := ⟨0, 0, 0, 0, 0, 0, 0, none⟩

/-- Increment the `skipped` counter. -/
def Stats.bumpSkipped (st : Stats) : Stats :=
  { st with skipped := st.skipped + 1 }

/-- The outcome of `download_file` for one URL (lines 18-30): success yields
the content, identified by its hash; failure may have written a partial
staging file before the exception, in which case the loop unlinks it
(lines 190-191). -/
inductive FetchResult where
  | ok (h : Nat)
  | fail (written : Option Nat)
  deriving DecidableEq, Repr

/-- The inputs of one iteration of the mesa loop: the record's URL
(`nombre_archivo`), its `needs_download` flag (defaulted to `True` when
absent), what the network would return were a download attempted, the
current timestamp, and the status flags copied into `mesa_info`. -/
structure MesaStep where
  url : String
  needsDownload : Bool
  fetch : FetchResult
  now : String
  publicada : Option Bool
  escrutado : Option Bool
  digitalizado : Option Bool
  deriving DecidableEq, Repr

/-- Local state of one acta: its registry entry (if any), the live file
(identified by content hash, `none` when absent), the archived history
files (newest first, recorded as (version, timestamp) — the pair the
history filename encodes) and the statistics counters. -/
structure ActaState where
  entry : Option RegEntry
  live : Option Nat
  hist : List (Nat × String)
  stats : Stats
  deriving DecidableEq, Repr

/-- Fresh mirror: no registry entry, no live file, no history. -/
def ActaState.init : ActaState := ⟨none, none, [], Stats.init⟩

/-- A filesystem operation performed by the loop. -/
inductive FSOp where
  | write (path : String) (content : Nat)
  | unlink (path : String)
  | rename (src dst : String)
  deriving DecidableEq, Repr

/-- Interpret one operation over a path-to-content map (`unlink` on an
absent path is a no-op, matching the guarded `if temp_path.exists()`
unlink of the code). -/
def applyFSOp (fs : String → Option Nat) : FSOp → String → Option Nat
  | FSOp.write p h => fun q => if q = p then some h else fs q
  | FSOp.unlink p => fun q => if q = p then none else fs q
  | FSOp.rename src dst => fun q =>
      if q = dst then fs src else if q = src then none else fs q

/-- Interpret a list of operations, first to last. -/
def applyFSOps (fs : String → Option Nat) : List FSOp → String → Option Nat
  | [] => fs
  | op :: rest => applyFSOps (applyFSOp fs op) rest

/-- The download-and-commit phase of one mesa iteration (lines 126-191),
already specialised by the `is_new_file` flag computed by the surrounding
branches (`isNew = true` only when the registry has no entry). -/
def commitDownload (k : Key) (s : ActaState) (i : MesaStep) (isNew : Bool) :
    ActaState × List FSOp :=
  match i.fetch with
  | FetchResult.fail written =>
    ({ s with stats := { s.stats with failed := s.stats.failed + 1 } },
     (match written with
      | some d => [FSOp.write (tempPath k) d]
      | none => []) ++ [FSOp.unlink (tempPath k)])
  | FetchResult.ok h =>
    match s.entry, isNew with
    | some e, false =>
      if e.hash = h then
        ({ s with stats :=
            { s.stats with unchangedFiles := s.stats.unchangedFiles + 1 } },
         [FSOp.write (tempPath k) h, FSOp.unlink (tempPath k)])
      else
        match s.live with
        | some _ =>
          ({ entry := some ⟨h, i.url, e.version + 1, i.now, i.publicada,
               i.escrutado, i.digitalizado⟩,
             live := some h,
             hist := (e.version, e.lastUpdated) :: s.hist,
             stats := { s.stats with
               updatedFiles := s.stats.updatedFiles + 1,
               downloaded := s.stats.downloaded + 1 } },
           [FSOp.write (tempPath k) h,
            FSOp.rename (livePath k) (histPath k e.version e.lastUpdated),
            FSOp.rename (tempPath k) (livePath k)])
        | none =>
          ({ entry := some ⟨h, i.url, e.version + 1, i.now, i.publicada,
               i.escrutado, i.digitalizado⟩,
             live := some h,
             hist := s.hist,
             stats := { s.stats with downloaded := s.stats.downloaded + 1 } },
           [FSOp.write (tempPath k) h,
            FSOp.rename (tempPath k) (livePath k)])
    | _, _ =>
      ({ entry := some ⟨h, i.url, 1, i.now, i.publicada, i.escrutado,
           i.digitalizado⟩,
         live := some h,
         hist := s.hist,
         stats := { s.stats with downloaded := s.stats.downloaded + 1 } },
       [FSOp.write (tempPath k) h,
        FSOp.rename (tempPath k) (livePath k)])

/-- One iteration of the mesa loop of `process_mesas_file` (lines 52-193)
for the acta addressed by `k`, under resume point `rp`: returns the updated
state and the filesystem operations performed. -/
def process_mesa (k : Key) (rp : Option ResumePoint) (s : ActaState)
    (i : MesaStep) : ActaState × List FSOp :=
  if i.url.isEmpty then (s, [])
  else if i.needsDownload = false then
    ({ s with stats := Stats.bumpSkipped s.stats }, [])
  else if should_skip_based_on_resume k rp then
    ({ s with stats := Stats.bumpSkipped s.stats }, [])
  else
    let s' : ActaState :=
      { s with stats := { s.stats with lastProcessed := some (keyStr k) } }
    match s.live with
    | some liveH =>
      match s.entry with
      | some e =>
        if e.url = i.url then
          ({ s' with stats := Stats.bumpSkipped s'.stats }, [])
        else
          commitDownload k
            { s' with stats :=
                { s'.stats with updatedUrls := s'.stats.updatedUrls + 1 } }
            i false
      | none =>
        ({ s' with
           entry := some ⟨liveH, i.url, 1, i.now, i.publicada, i.escrutado,
             i.digitalizado⟩,
           stats := Stats.bumpSkipped s'.stats }, [])
    | none =>
      if s.entry.isNone then
        commitDownload k
          { s' with stats :=
              { s'.stats with newFiles := s'.stats.newFiles + 1 } }
          i true
      else
        commitDownload k
          { s' with stats :=
              { s'.stats with updatedUrls := s'.stats.updatedUrls + 1 } }
          i false

/-- `process_mesas_file` restricted to the records addressing acta `k`:
fold the per-mesa step over the run's inputs. -/
def process_mesas_file (k : Key) (rp : Option ResumePoint) (s : ActaState) :
    List MesaStep → ActaState
  | [] => s
  | i :: rest => process_mesas_file k rp (process_mesa k rp s i).1 rest

/-- `List.range'` starting at 1, extended by one element. -/
theorem range'_one_snoc (v : Nat) :
    List.range' 1 (v + 1) = List.range' 1 v ++ [v + 1] := by
  have h := @List.range'_concat 1 1 v
  simp only [Nat.one_mul] at h
  simpa [Nat.add_comm] using h

/-- Registry/history invariant of one acta: without an entry there is no
live file and no history; with an entry at version `v`, a live file exists
and the archived versions together with `v` are exactly `1, …, v`. -/
def RegInv (s : ActaState) : Prop :=
  (s.entry = none → s.live = none ∧ s.hist = []) ∧
  ∀ e, s.entry = some e → 1 ≤ e.version ∧ s.live.isSome = true ∧
    (s.hist.map Prod.fst).reverse ++ [e.version] = List.range' 1 e.version

/-- The fresh mirror satisfies the invariant. -/
theorem RegInv_init : RegInv ActaState.init := by
  constructor
  · intro _; exact ⟨rfl, rfl⟩
  · intro e he; simp [ActaState.init] at he

/-- Transport the invariant along equations on the tracked fields (the
statistics play no role in it). -/
theorem RegInv_cast (s : ActaState) (st : Stats) (e : Option RegEntry)
    (l : Option Nat) (he : s.entry = e) (hl : s.live = l) (h : RegInv s) :
    RegInv ⟨e, l, s.hist, st⟩ := by
  subst he
  subst hl
  exact h

/-- The commit phase preserves the invariant when the registry already has
an entry (`is_new_file = False`). -/
theorem RegInv_commit_old (k : Key) (e : RegEntry) (l : Option Nat)
    (hs : List (Nat × String)) (st : Stats) (i : MesaStep)
    (h : RegInv ⟨some e, l, hs, st⟩) :
    RegInv (commitDownload k ⟨some e, l, hs, st⟩ i false).1 := by
  obtain ⟨hv, hlive, hhist⟩ := h.2 e rfl
  cases hf : i.fetch with
  | fail written => simpa [commitDownload, hf] using h
  | ok hsh =>
    by_cases heq : e.hash = hsh
    · simpa [commitDownload, hf, heq] using h
    · cases l with
      | none => simp at hlive
      | some lh =>
        simp only [commitDownload, hf, heq, if_false]
        constructor
        · intro hco; simp at hco
        · intro e' he'
          simp only [Option.some_inj] at he'
          subst he'
          refine ⟨Nat.succ_le_succ (Nat.zero_le _), rfl, ?_⟩
          simp only [List.map_cons, List.reverse_cons]
          rw [hhist]
          exact (range'_one_snoc e.version).symm

/-- The commit phase preserves the invariant when the registry has no entry
(`is_new_file = True`). -/
theorem RegInv_commit_new (k : Key) (l : Option Nat)
    (hs : List (Nat × String)) (st : Stats) (i : MesaStep)
    (h : RegInv ⟨none, l, hs, st⟩) :
    RegInv (commitDownload k ⟨none, l, hs, st⟩ i true).1 := by
  obtain ⟨hlive, hhist⟩ := h.1 rfl
  cases hf : i.fetch with
  | fail written => simpa [commitDownload, hf] using h
  | ok hsh =>
    simp only [commitDownload, hf]
    constructor
    · intro hco; simp at hco
    · intro e' he'
      simp only [Option.some_inj] at he'
      subst he'
      refine ⟨le_refl 1, rfl, ?_⟩
      simp only at hhist
      simp [hhist, List.range']

/-- One step of the mesa loop preserves the registry/history invariant. -/
theorem RegInv_process_mesa (k : Key) (rp : Option ResumePoint)
    (s : ActaState) (i : MesaStep) (h : RegInv s) :
    RegInv (process_mesa k rp s i).1 := by
  unfold process_mesa
  by_cases h1 : i.url.isEmpty = true
  · rw [if_pos h1]; exact h
  rw [if_neg h1]
  by_cases h2 : i.needsDownload = false
  · rw [if_pos h2]; exact h
  rw [if_neg h2]
  by_cases h3 : should_skip_based_on_resume k rp = true
  · rw [if_pos h3]; exact h
  rw [if_neg h3]
  cases hl : s.live with
  | some liveH =>
    cases he : s.entry with
    | some e =>
      simp only []
      by_cases hu : e.url = i.url
      · rw [if_pos hu]
        exact RegInv_cast s _ (some e) (some liveH) he hl h
      · rw [if_neg hu]
        exact RegInv_commit_old k e (some liveH) s.hist _ i
          (RegInv_cast s _ (some e) (some liveH) he hl h)
    | none =>
      obtain ⟨hlive, _⟩ := h.1 he
      rw [hl] at hlive
      exact absurd hlive (by simp)
  | none =>
    cases he : s.entry with
    | some e =>
      obtain ⟨_, hlive, _⟩ := h.2 e he
      rw [hl] at hlive
      simp at hlive
    | none =>
      simp only [Option.isNone_none, if_true]
      exact RegInv_commit_new k none s.hist _ i
        (RegInv_cast s _ none none he hl h)

/-- The whole loop preserves the invariant. -/
theorem RegInv_process_mesas_file (k : Key) (rp : Option ResumePoint) :
    ∀ (steps : List MesaStep) (s : ActaState), RegInv s →
      RegInv (process_mesas_file k rp s steps) := by
  intro steps
  induction steps with
  | nil => intro s h; exact h
  | cons i rest ih =>
    intro s h
    exact ih _ (RegInv_process_mesa k rp s i h)

/-- With an existing entry, a commit either leaves the entry (and so its
hash) unchanged, or installs the fetched hash at version `+1`. -/
theorem commit_old_version (k : Key) (e₀ : RegEntry) (l : Option Nat)
    (hs : List (Nat × String)) (st : Stats) (i : MesaStep) (e' : RegEntry)
    (h' : (commitDownload k ⟨some e₀, l, hs, st⟩ i false).1.entry = some e')
    (hne : e'.hash ≠ e₀.hash) : e'.version = e₀.version + 1 := by
  cases hf : i.fetch with
  | fail written =>
    simp only [commitDownload, hf, Option.some_inj] at h'
    exact absurd (by rw [← h']) hne
  | ok hsh =>
    by_cases heq : e₀.hash = hsh
    · simp only [commitDownload, hf, heq, if_true, Option.some_inj] at h'
      exact absurd (by rw [← h']) hne
    · cases l with
      | none =>
        simp only [commitDownload, hf, heq, if_false, Option.some_inj] at h'
        rw [← h']
      | some lh =>
        simp only [commitDownload, hf, heq, if_false, Option.some_inj] at h'
        rw [← h']

/-- Without an entry, a successful commit creates version 1. -/
theorem commit_new_creates (k : Key) (l : Option Nat)
    (hs : List (Nat × String)) (st : Stats) (i : MesaStep) (e' : RegEntry)
    (h' : (commitDownload k ⟨none, l, hs, st⟩ i true).1.entry = some e') :
    e'.version = 1 := by
  cases hf : i.fetch with
  | fail written =>
    simp [commitDownload, hf] at h'
  | ok hsh =>
    simp only [commitDownload, hf, Option.some_inj] at h'
    rw [← h']

/-- If a step of the loop creates the registry entry, it is created at
version 1. -/
theorem process_mesa_creates_v1 (k : Key) (rp : Option ResumePoint)
    (s : ActaState) (i : MesaStep) (e' : RegEntry) (hE : s.entry = none)
    (h' : (process_mesa k rp s i).1.entry = some e') : e'.version = 1 := by
  unfold process_mesa at h'
  by_cases h1 : i.url.isEmpty = true
  · rw [if_pos h1] at h'
    simp [hE] at h'
  rw [if_neg h1] at h'
  by_cases h2 : i.needsDownload = false
  · rw [if_pos h2] at h'
    simp [hE] at h'
  rw [if_neg h2] at h'
  by_cases h3 : should_skip_based_on_resume k rp = true
  · rw [if_pos h3] at h'
    simp [hE] at h'
  rw [if_neg h3] at h'
  cases hl : s.live with
  | some liveH =>
    rw [hl, hE] at h'
    simp only [Option.some_inj] at h'
    rw [← h']
  | none =>
    rw [hl, hE] at h'
    simp only [Option.isNone_none, if_true] at h'
    exact commit_new_creates k none s.hist _ i e' h' 

/-- If a step of the loop replaces the entry's hash, the version rises by
exactly 1. -/
theorem process_mesa_bumps_version (k : Key) (rp : Option ResumePoint)
    (s : ActaState) (i : MesaStep) (e₀ e' : RegEntry) (hE : s.entry = some e₀)
    (h' : (process_mesa k rp s i).1.entry = some e')
    (hne : e'.hash ≠ e₀.hash) : e'.version = e₀.version + 1 := by
  unfold process_mesa at h'
  by_cases h1 : i.url.isEmpty = true
  · rw [if_pos h1] at h'
    simp only [hE, Option.some_inj] at h'
    exact absurd (by rw [← h']) hne
  rw [if_neg h1] at h'
  by_cases h2 : i.needsDownload = false
  · rw [if_pos h2] at h'
    simp only [hE, Option.some_inj] at h'
    exact absurd (by rw [← h']) hne
  rw [if_neg h2] at h'
  by_cases h3 : should_skip_based_on_resume k rp = true
  · rw [if_pos h3] at h'
    simp only [hE, Option.some_inj] at h'
    exact absurd (by rw [← h']) hne
  rw [if_neg h3] at h'
  cases hl : s.live with
  | some liveH =>
    rw [hl, hE] at h'
    simp only [] at h'
    by_cases hu : e₀.url = i.url
    · rw [if_pos hu] at h'
      simp only [Option.some_inj] at h'
      exact absurd (by rw [← h']) hne
    · rw [if_neg hu] at h'
      exact commit_old_version k e₀ (some liveH) s.hist _ i e' h' hne
  | none =>
    rw [hl, hE] at h'
    simp only [Option.isNone_some, Bool.false_eq_true, if_false] at h'
    exact commit_old_version k e₀ none s.hist _ i e' h' hne

/-- C3: running the loop from a fresh mirror, whenever the acta has a
registry entry its version is at least 1 and the version numbers of the
history files together with the live version form the contiguous run
1, …, version with no gaps or repeats; moreover any step that first creates
an entry creates it at version 1, and any step that changes the stored
content hash (which only a successful download with a differing hash does)
increases the version by exactly 1. -/
theorem registry_version_contiguous (k : Key) (rp : Option ResumePoint)
    (steps : List MesaStep) (e : RegEntry)
    (h : (process_mesas_file k rp ActaState.init steps).entry = some e) :
    1 ≤ e.version ∧
    ((process_mesas_file k rp ActaState.init steps).hist.map
        Prod.fst).reverse ++ [e.version] = List.range' 1 e.version ∧
    (∀ (s : ActaState) (i : MesaStep) (e' : RegEntry), s.entry = none →
      (process_mesa k rp s i).1.entry = some e' → e'.version = 1) ∧
    (∀ (s : ActaState) (i : MesaStep) (e₀ e' : RegEntry), s.entry = some e₀ →
      (process_mesa k rp s i).1.entry = some e' → e'.hash ≠ e₀.hash →
      e'.version = e₀.version + 1) := by
  have hinv := RegInv_process_mesas_file k rp steps ActaState.init RegInv_init
  obtain ⟨hv, _, hhist⟩ := hinv.2 e h
  exact ⟨hv, hhist,
    fun s i e' => process_mesa_creates_v1 k rp s i e',
    fun s i e₀ e' h1 h2 h3 => process_mesa_bumps_version k rp s i e₀ e' h1 h2 h3⟩

/-- The key used by the concrete state-machine witnesses. -/
def kEx : Key := ⟨"01", "001", "01", "015", "911"⟩

/-- First witness step: a new acta downloaded successfully (content 5). -/
def step1 : MesaStep := ⟨"u1", true, FetchResult.ok 5, "t1", none, none, none⟩

/-- Second witness step: the URL changes and the new content (7) differs. -/
def step2 : MesaStep := ⟨"u2", true, FetchResult.ok 7, "t2", none, none, none⟩

/-- Witness for C3: after the two concrete steps the registry holds version
2 and the history holds exactly version 1. -/
theorem registry_version_contiguous_witness :
    (process_mesas_file kEx none ActaState.init [step1, step2]).entry =
      some ⟨7, "u2", 2, "t2", none, none, none⟩ ∧
    (1 ≤ (2 : Nat) ∧
     ((process_mesas_file kEx none ActaState.init [step1, step2]).hist.map
        Prod.fst).reverse ++ [2] = List.range' 1 2 ∧
     (∀ (s : ActaState) (i : MesaStep) (e' : RegEntry), s.entry = none →
       (process_mesa kEx none s i).1.entry = some e' → e'.version = 1) ∧
     (∀ (s : ActaState) (i : MesaStep) (e₀ e' : RegEntry),
       s.entry = some e₀ → (process_mesa kEx none s i).1.entry = some e' →
       e'.hash ≠ e₀.hash → e'.version = e₀.version + 1)) :=
  ⟨rfl, registry_version_contiguous kEx none [step1, step2]
    ⟨7, "u2", 2, "t2", none, none, none⟩ rfl⟩

/-- The staging path is distinct from the live artifact path. -/
theorem tempPath_ne_livePath (k : Key) : tempPath k ≠ livePath k := by
  intro hcontra
  have hlen := congrArg String.length hcontra
  have h4 : (".tmp" : String).length = 4 := by decide
  simp [tempPath, livePath, String.length_append, h4] at hlen

/-- In the URL-changed branch with a hash-equal download, the step reduces
to the "unchanged" commit. -/
theorem process_mesa_unchanged_eq (k : Key) (rp : Option ResumePoint)
    (s : ActaState) (i : MesaStep) (e : RegEntry) (lh : Nat)
    (hurl : i.url.isEmpty = false) (hneeds : i.needsDownload = true)
    (hskip : should_skip_based_on_resume k rp = false)
    (hl : s.live = some lh) (he : s.entry = some e)
    (hdiff : e.url ≠ i.url) (hf : i.fetch = FetchResult.ok e.hash) :
    process_mesa k rp s i =
      (⟨some e, some lh, s.hist,
        { s.stats with
          lastProcessed := some (keyStr k)
          updatedUrls := s.stats.updatedUrls + 1
          unchangedFiles := s.stats.unchangedFiles + 1 }⟩,
       [FSOp.write (tempPath k) e.hash, FSOp.unlink (tempPath k)]) := by
  unfold process_mesa
  rw [if_neg (by simp [hurl]), if_neg (by simp [hneeds]),
    if_neg (by simp [hskip]), hl, he]
  simp only []
  rw [if_neg hdiff]
  simp [commitDownload, hf]

/-- C4: when the URL changed but the downloaded bytes hash-equal the stored
hash, the commit protocol discards the staged file (the staging path ends
empty, the live path untouched), creates no history file, leaves the
registry entry — hence the version — unchanged, and counts the record as
"unchanged". -/
theorem hash_gated_dedup (k : Key) (rp : Option ResumePoint)
    (s : ActaState) (i : MesaStep) (e : RegEntry) (lh : Nat)
    (hurl : i.url.isEmpty = false) (hneeds : i.needsDownload = true)
    (hskip : should_skip_based_on_resume k rp = false)
    (hl : s.live = some lh) (he : s.entry = some e)
    (hdiff : e.url ≠ i.url) (hf : i.fetch = FetchResult.ok e.hash) :
    (process_mesa k rp s i).1.entry = some e ∧
    (process_mesa k rp s i).1.live = s.live ∧
    (process_mesa k rp s i).1.hist = s.hist ∧
    (process_mesa k rp s i).1.stats.unchangedFiles =
      s.stats.unchangedFiles + 1 ∧
    (process_mesa k rp s i).2 =
      [FSOp.write (tempPath k) e.hash, FSOp.unlink (tempPath k)] ∧
    (∀ fs : String → Option Nat,
      applyFSOps fs (process_mesa k rp s i).2 (tempPath k) = none) ∧
    (∀ fs : String → Option Nat,
      applyFSOps fs (process_mesa k rp s i).2 (livePath k) =
        fs (livePath k)) := by
  have hstep := process_mesa_unchanged_eq k rp s i e lh hurl hneeds hskip hl
    he hdiff hf
  have hlv : livePath k ≠ tempPath k := (tempPath_ne_livePath k).symm
  rw [hstep]
  refine ⟨rfl, hl.symm, rfl, rfl, rfl, ?_, ?_⟩
  · intro fs
    simp [applyFSOps, applyFSOp]
  · intro fs
    simp [applyFSOps, applyFSOp, hlv]

/-- Witness state for the C4/C7/C10 theorems: version 3, content hash 5,
URL `u1`, one archived version. -/
def sEx : ActaState :=
  ⟨some ⟨5, "u1", 3, "t0", none, none, none⟩, some 5, [(2, "t9"), (1, "t8")],
   Stats.init⟩

/-- A step whose fresh download returns the already-stored content 5 from a
changed URL. -/
def stepDup : MesaStep :=
  ⟨"u2", true, FetchResult.ok 5, "t3", none, none, none⟩

/-- Witness for C4 at the concrete unchanged-download state. -/
theorem hash_gated_dedup_witness :
    (stepDup.url.isEmpty = false ∧ stepDup.needsDownload = true ∧
     should_skip_based_on_resume kEx none = false ∧
     sEx.live = some 5 ∧
     sEx.entry = some ⟨5, "u1", 3, "t0", none, none, none⟩ ∧
     (⟨5, "u1", 3, "t0", none, none, none⟩ : RegEntry).url ≠ stepDup.url ∧
     stepDup.fetch =
       FetchResult.ok (⟨5, "u1", 3, "t0", none, none, none⟩ : RegEntry).hash) ∧
    ((process_mesa kEx none sEx stepDup).1.entry =
      some ⟨5, "u1", 3, "t0", none, none, none⟩ ∧
    (process_mesa kEx none sEx stepDup).1.live = sEx.live ∧
    (process_mesa kEx none sEx stepDup).1.hist = sEx.hist ∧
    (process_mesa kEx none sEx stepDup).1.stats.unchangedFiles =
      sEx.stats.unchangedFiles + 1 ∧
    (process_mesa kEx none sEx stepDup).2 =
      [FSOp.write (tempPath kEx) 5, FSOp.unlink (tempPath kEx)] ∧
    (∀ fs : String → Option Nat,
      applyFSOps fs (process_mesa kEx none sEx stepDup).2 (tempPath kEx) =
        none) ∧
    (∀ fs : String → Option Nat,
      applyFSOps fs (process_mesa kEx none sEx stepDup).2 (livePath kEx) =
        fs (livePath kEx))) :=
  ⟨⟨rfl, rfl, rfl, rfl, rfl, by decide, rfl⟩,
   hash_gated_dedup kEx none sEx stepDup ⟨5, "u1", 3, "t0", none, none, none⟩
     5 rfl rfl rfl rfl rfl (by decide) rfl⟩

/-- C10: in the "unchanged" branch (URL changed, staged hash equals the
stored hash) the registry entry is left entirely unmodified — the stored
`source_url` keeps the superseded old URL rather than being updated to the
record's current URL, and hash, version, timestamp and originating-record
fields are all unchanged. -/
theorem unchanged_branch_entry_frame (k : Key) (rp : Option ResumePoint)
    (s : ActaState) (i : MesaStep) (e : RegEntry) (lh : Nat)
    (hurl : i.url.isEmpty = false) (hneeds : i.needsDownload = true)
    (hskip : should_skip_based_on_resume k rp = false)
    (hl : s.live = some lh) (he : s.entry = some e)
    (hdiff : e.url ≠ i.url) (hf : i.fetch = FetchResult.ok e.hash) :
    (process_mesa k rp s i).1.entry = s.entry ∧
    ∀ e', (process_mesa k rp s i).1.entry = some e' →
      e'.hash = e.hash ∧ e'.url = e.url ∧ e'.url ≠ i.url ∧
      e'.version = e.version ∧ e'.lastUpdated = e.lastUpdated ∧
      e'.publicada = e.publicada ∧ e'.escrutado = e.escrutado ∧
      e'.digitalizado = e.digitalizado := by
  have hstep := process_mesa_unchanged_eq k rp s i e lh hurl hneeds hskip hl
    he hdiff hf
  rw [hstep]
  refine ⟨he.symm, ?_⟩
  intro e' he'
  simp only [Option.some_inj] at he'
  subst he'
  exact ⟨rfl, rfl, hdiff, rfl, rfl, rfl, rfl, rfl⟩

/-- Witness for C10 at the concrete unchanged-download state. -/
theorem unchanged_branch_entry_frame_witness :
    (stepDup.url.isEmpty = false ∧ stepDup.needsDownload = true ∧
     should_skip_based_on_resume kEx none = false ∧
     sEx.live = some 5 ∧
     sEx.entry = some ⟨5, "u1", 3, "t0", none, none, none⟩ ∧
     (⟨5, "u1", 3, "t0", none, none, none⟩ : RegEntry).url ≠ stepDup.url ∧
     stepDup.fetch =
       FetchResult.ok (⟨5, "u1", 3, "t0", none, none, none⟩ : RegEntry).hash) ∧
    ((process_mesa kEx none sEx stepDup).1.entry = sEx.entry ∧
     ∀ e', (process_mesa kEx none sEx stepDup).1.entry = some e' →
       e'.hash = (⟨5, "u1", 3, "t0", none, none, none⟩ : RegEntry).hash ∧
       e'.url = (⟨5, "u1", 3, "t0", none, none, none⟩ : RegEntry).url ∧
       e'.url ≠ stepDup.url ∧
       e'.version = (⟨5, "u1", 3, "t0", none, none, none⟩ : RegEntry).version ∧
       e'.lastUpdated =
         (⟨5, "u1", 3, "t0", none, none, none⟩ : RegEntry).lastUpdated ∧
       e'.publicada =
         (⟨5, "u1", 3, "t0", none, none, none⟩ : RegEntry).publicada ∧
       e'.escrutado =
         (⟨5, "u1", 3, "t0", none, none, none⟩ : RegEntry).escrutado ∧
       e'.digitalizado =
         (⟨5, "u1", 3, "t0", none, none, none⟩ : RegEntry).digitalizado) :=
  ⟨⟨rfl, rfl, rfl, rfl, rfl, by decide, rfl⟩,
   unchanged_branch_entry_frame kEx none sEx stepDup
     ⟨5, "u1", 3, "t0", none, none, none⟩ 5 rfl rfl rfl rfl rfl (by decide)
     rfl⟩

/-- The operations a failed fetch leaves behind: the possible partial write
of the staging file, then its unlink. -/
def failOps (k : Key) (w : Option Nat) : List FSOp :=
  (match w with
   | some d => [FSOp.write (tempPath k) d]
   | none => []) ++ [FSOp.unlink (tempPath k)]

/-- On a failed fetch, the commit phase only bumps the failure counter and
cleans the staging path. -/
theorem commitDownload_fail (k : Key) (s : ActaState) (i : MesaStep)
    (isNew : Bool) (w : Option Nat) (hf : i.fetch = FetchResult.fail w) :
    commitDownload k s i isNew =
      ({ s with stats := { s.stats with failed := s.stats.failed + 1 } },
       failOps k w) := by
  simp only [commitDownload, hf, failOps]

/-- C7: a failed fetch (network error, bad status or timeout) increments
the `failed` counter, removes any staged temporary file, leaves the live
artifact, the history and that acta's registry entry unchanged, and the
loop proceeds to the next record — the failure does not abort the run. -/
theorem fetch_failure_isolated (k : Key) (rp : Option ResumePoint)
    (s : ActaState) (i : MesaStep) (w : Option Nat)
    (hurl : i.url.isEmpty = false) (hneeds : i.needsDownload = true)
    (hskip : should_skip_based_on_resume k rp = false)
    (hf : i.fetch = FetchResult.fail w)
    (hbranch : s.live = none ∨
      ∃ lh e, s.live = some lh ∧ s.entry = some e ∧ e.url ≠ i.url) :
    (process_mesa k rp s i).1.entry = s.entry ∧
    (process_mesa k rp s i).1.live = s.live ∧
    (process_mesa k rp s i).1.hist = s.hist ∧
    (process_mesa k rp s i).1.stats.failed = s.stats.failed + 1 ∧
    (∀ fs : String → Option Nat,
      applyFSOps fs (process_mesa k rp s i).2 (tempPath k) = none) ∧
    (∀ fs : String → Option Nat,
      applyFSOps fs (process_mesa k rp s i).2 (livePath k) =
        fs (livePath k)) ∧
    (∀ rest : List MesaStep, process_mesas_file k rp s (i :: rest) =
      process_mesas_file k rp (process_mesa k rp s i).1 rest) := by
  have hlv : livePath k ≠ tempPath k := (tempPath_ne_livePath k).symm
  have hops : ∀ fs : String → Option Nat,
      applyFSOps fs (failOps k w) (tempPath k) = none := by
    intro fs
    cases w with
    | none => simp [failOps, applyFSOps, applyFSOp]
    | some d => simp [failOps, applyFSOps, applyFSOp]
  have hopsl : ∀ fs : String → Option Nat,
      applyFSOps fs (failOps k w) (livePath k) = fs (livePath k) := by
    intro fs
    cases w with
    | none => simp [failOps, applyFSOps, applyFSOp, hlv]
    | some d => simp [failOps, applyFSOps, applyFSOp, hlv]
  have hstep : process_mesa k rp s i =
      (⟨s.entry, s.live, s.hist,
        { s.stats with
          lastProcessed := some (keyStr k)
          newFiles := if s.live = none ∧ s.entry = none then
            s.stats.newFiles + 1 else s.stats.newFiles
          updatedUrls := if s.live = none ∧ s.entry = none then
            s.stats.updatedUrls else s.stats.updatedUrls + 1
          failed := s.stats.failed + 1 }⟩,
       failOps k w) := by
    unfold process_mesa
    rw [if_neg (by simp [hurl]), if_neg (by simp [hneeds]),
      if_neg (by simp [hskip])]
    rcases hbranch with hnone | ⟨lh, e, hl, he, hdiff⟩
    · rw [hnone]
      cases he : s.entry with
      | none =>
        simp only [Option.isNone_none, if_true]
        rw [commitDownload_fail k _ i true w hf]
        simp [hnone, he]
      | some e =>
        simp only [Option.isNone_some, Bool.false_eq_true, if_false]
        rw [commitDownload_fail k _ i false w hf]
        simp [hnone, he]
    · rw [hl, he]
      simp only []
      rw [if_neg hdiff]
      rw [commitDownload_fail k _ i false w hf]
      simp [hl, he]
  refine ⟨?_, ?_, ?_, ?_, ?_, ?_, fun rest => rfl⟩
  · rw [hstep]
  · rw [hstep]
  · rw [hstep]
  · rw [hstep]
  · rw [hstep]
    exact hops
  · rw [hstep]
    exact hopsl

/-- A step whose fetch fails after a partial write of content 9. -/
def stepFail : MesaStep :=
  ⟨"u3", true, FetchResult.fail (some 9), "t4", none, none, none⟩

/-- Witness for C7 at the concrete failing step. -/
theorem fetch_failure_isolated_witness :
    (stepFail.url.isEmpty = false ∧ stepFail.needsDownload = true ∧
     should_skip_based_on_resume kEx none = false ∧
     stepFail.fetch = FetchResult.fail (some 9) ∧
     (sEx.live = none ∨
      ∃ lh e, sEx.live = some lh ∧ sEx.entry = some e ∧
        e.url ≠ stepFail.url)) ∧
    ((process_mesa kEx none sEx stepFail).1.entry = sEx.entry ∧
     (process_mesa kEx none sEx stepFail).1.live = sEx.live ∧
     (process_mesa kEx none sEx stepFail).1.hist = sEx.hist ∧
     (process_mesa kEx none sEx stepFail).1.stats.failed =
       sEx.stats.failed + 1 ∧
     (∀ fs : String → Option Nat,
       applyFSOps fs (process_mesa kEx none sEx stepFail).2 (tempPath kEx) =
         none) ∧
     (∀ fs : String → Option Nat,
       applyFSOps fs (process_mesa kEx none sEx stepFail).2 (livePath kEx) =
         fs (livePath kEx)) ∧
     (∀ rest : List MesaStep,
       process_mesas_file kEx none sEx (stepFail :: rest) =
         process_mesas_file kEx none (process_mesa kEx none sEx stepFail).1
           rest)) :=
  ⟨⟨rfl, rfl, rfl, rfl,
    Or.inr ⟨5, ⟨5, "u1", 3, "t0", none, none, none⟩, rfl, rfl, by decide⟩⟩,
   fetch_failure_isolated kEx none sEx stepFail (some 9) rfl rfl rfl rfl
     (Or.inr ⟨5, ⟨5, "u1", 3, "t0", none, none, none⟩, rfl, rfl,
       by decide⟩)⟩

/-- The live path is never a history path (their lengths always differ). -/
theorem livePath_ne_histPath (k : Key) (v : Nat) (ts : String) :
    livePath k ≠ histPath k v ts := by
  intro h
  have hlen := congrArg String.length h
  have c1 : ("-" : String).length = 1 := by decide
  have c2 : ("/" : String).length = 1 := by decide
  have c3 : ("_v" : String).length = 2 := by decide
  have c4 : ("_" : String).length = 1 := by decide
  have c5 : (".pdf" : String).length = 4 := by decide
  simp [livePath, filename, histPath, String.length_append, c1, c2, c3, c4,
    c5] at hlen
  omega

/-- Safety predicate on one filesystem operation: writes and unlinks touch
only the staging path; renames are either the staging-to-live commit or the
live-to-history archive move. -/
def opOk (k : Key) : FSOp → Prop
  | FSOp.write p _ => p = tempPath k
  | FSOp.unlink p => p = tempPath k
  | FSOp.rename src dst =>
      (src = tempPath k ∧ dst = livePath k) ∨
      (src = livePath k ∧ ∃ v ts, dst = histPath k v ts)

/-- Every operation of the commit phase satisfies the safety predicate. -/
theorem commitDownload_opOk (k : Key) (s : ActaState) (i : MesaStep)
    (isNew : Bool) :
    ∀ op ∈ (commitDownload k s i isNew).2, opOk k op := by
  cases hf : i.fetch with
  | fail w =>
    rw [commitDownload_fail k s i isNew w hf]
    cases w with
    | none => simp [failOps, opOk]
    | some d => simp [failOps, opOk]
  | ok hsh =>
    simp only [commitDownload, hf]
    cases he : s.entry with
    | some e =>
      cases isNew with
      | false =>
        simp only []
        by_cases heq : e.hash = hsh
        · rw [if_pos heq]
          simp [opOk]
        · rw [if_neg heq]
          cases hl : s.live with
          | some lh =>
            intro op hop
            simp only [List.mem_cons, List.not_mem_nil, or_false] at hop
            rcases hop with rfl | rfl | rfl
            · exact rfl
            · exact Or.inr ⟨rfl, e.version, e.lastUpdated, rfl⟩
            · exact Or.inl ⟨rfl, rfl⟩
          | none =>
            intro op hop
            simp only [List.mem_cons, List.not_mem_nil, or_false] at hop
            rcases hop with rfl | rfl
            · exact rfl
            · exact Or.inl ⟨rfl, rfl⟩
      | true =>
        simp only []
        intro op hop
        simp only [List.mem_cons, List.not_mem_nil, or_false] at hop
        rcases hop with rfl | rfl
        · exact rfl
        · exact Or.inl ⟨rfl, rfl⟩
    | none =>
      simp only []
      intro op hop
      simp only [List.mem_cons, List.not_mem_nil, or_false] at hop
      rcases hop with rfl | rfl
      · exact rfl
      · exact Or.inl ⟨rfl, rfl⟩

/-- Every operation of one mesa-loop step satisfies the safety predicate. -/
theorem process_mesa_opOk (k : Key) (rp : Option ResumePoint)
    (s : ActaState) (i : MesaStep) :
    ∀ op ∈ (process_mesa k rp s i).2, opOk k op := by
  unfold process_mesa
  by_cases h1 : i.url.isEmpty = true
  · rw [if_pos h1]
    simp
  rw [if_neg h1]
  by_cases h2 : i.needsDownload = false
  · rw [if_pos h2]
    simp
  rw [if_neg h2]
  by_cases h3 : should_skip_based_on_resume k rp = true
  · rw [if_pos h3]
    simp
  rw [if_neg h3]
  cases hl : s.live with
  | some lh =>
    cases he : s.entry with
    | some e =>
      simp only []
      by_cases hu : e.url = i.url
      · rw [if_pos hu]
        simp
      · rw [if_neg hu]
        exact commitDownload_opOk k _ i false
    | none => simp
  | none =>
    cases he : s.entry with
    | some e =>
      simp only [Option.isNone_some, Bool.false_eq_true, if_false]
      exact commitDownload_opOk k _ i false
    | none =>
      simp only [Option.isNone_none, if_true]
      exact commitDownload_opOk k _ i true

/-- C8: fetched bytes are only ever written to the staging path, which is
distinct from the live artifact path; every rename is either the
staging-to-live commit or the live-to-history archive move; in particular
the live path only ever receives content by a rename from the staging path,
and no operation writes fetched bytes directly to the live path. -/
theorem staging_discipline (k : Key) (rp : Option ResumePoint)
    (s : ActaState) (i : MesaStep) :
    tempPath k ≠ livePath k ∧
    (∀ p h, FSOp.write p h ∈ (process_mesa k rp s i).2 → p = tempPath k) ∧
    (∀ src dst, FSOp.rename src dst ∈ (process_mesa k rp s i).2 →
      (src = tempPath k ∧ dst = livePath k) ∨
      (src = livePath k ∧ ∃ v ts, dst = histPath k v ts)) ∧
    (∀ src, FSOp.rename src (livePath k) ∈ (process_mesa k rp s i).2 →
      src = tempPath k) := by
  refine ⟨tempPath_ne_livePath k, ?_, ?_, ?_⟩
  · intro p h hmem
    have hok := process_mesa_opOk k rp s i _ hmem
    simpa [opOk] using hok
  · intro src dst hmem
    have hok := process_mesa_opOk k rp s i _ hmem
    simpa [opOk] using hok
  · intro src hmem
    have hok := process_mesa_opOk k rp s i _ hmem
    rcases hok with ⟨hsrc, _⟩ | ⟨hsrc, v, ts, hdst⟩
    · exact hsrc
    · exact absurd hdst (livePath_ne_histPath k v ts)

/-! ## The reconciler (mark_existing_actas.py)

`mark_existing_actas` builds the set of identifiers of the PDF files present
in the actas directory and then walks every `mesas.json`, forcing
`needs_download = false` for each record whose derived identifier is in the
set (lines 177-203 of `src/utils/mark_existing_actas.py`). We model one
`mesas.json` pass: the codes of the surrounding traversal are parameters and
the set of locally present identifiers is the input list `down`. -/

/-- A record as the reconciler reads it: `numero` and the `needs_download`
flag (read with `dict.get`, so possibly absent). -/
structure MarkMesa where
  numero : Nat
  needs_download : Option Bool
  deriving DecidableEq, Repr

/-- The identifier `DEPT-MUNI-ZONA-CENTRO-MESA` derived for a record
(line 184). -/
def actaId (dept muni zona centro : String) (numero : Nat) : String :=
  dept ++ "-" ++ muni ++ "-" ++ zona ++ "-" ++ centro ++ "-" ++
  toString numero

/-- Is the record's derived identifier among the locally present acta
files? (the `acta_id in downloaded_actas` test, line 187). -/
def locallyPresent (down : List String) (dept muni zona centro : String)
    (m : MarkMesa) : Bool :=
  down.contains (actaId dept muni zona centro m.numero)

/-- The reconciler's counters: `total_mesas`, `mesas_marked_false`,
`mesas_already_false`, `mesas_left_true` (lines 96-102). -/
structure MarkStats where
  total : Nat
  marked : Nat
  already : Nat
  leftTrue : Nat
  deriving DecidableEq, Repr

/-- The per-file marking loop of `mark_existing_actas` (lines 179-197):
a record whose identifier is present is forced to `needs_download = false`
(counted as newly marked when the flag was not already `False`, otherwise
as already false); other records are left untouched and counted as left
true. -/
def mark_existing_actas (down : List String)
    (dept muni zona centro : String) :
    List MarkMesa → List MarkMesa × MarkStats
  | [] => ([], ⟨0, 0, 0, 0⟩)
  | m :: rest =>
    let r := mark_existing_actas down dept muni zona centro rest
    if locallyPresent down dept muni zona centro m then
      if m.needs_download ≠ some false then
        ({ m with needs_download := some false } :: r.1,
         ⟨r.2.total + 1, r.2.marked + 1, r.2.already, r.2.leftTrue⟩)
      else
        (m :: r.1, ⟨r.2.total + 1, r.2.marked, r.2.already + 1, r.2.leftTrue⟩)
    else
      (m :: r.1, ⟨r.2.total + 1, r.2.marked, r.2.already, r.2.leftTrue + 1⟩)

/-- The pointwise effect of the reconciler on one record. -/
def markFn (down : List String) (dept muni zona centro : String)
    (m : MarkMesa) : MarkMesa :=
  if locallyPresent down dept muni zona centro m then
    { m with needs_download := some false }
  else m

/-- The records the reconciler returns are exactly the pointwise marking. -/
theorem mark_existing_actas_fst (down : List String)
    (dept muni zona centro : String) (mesas : List MarkMesa) :
    (mark_existing_actas down dept muni zona centro mesas).1 =
      mesas.map (markFn down dept muni zona centro) := by
  induction mesas with
  | nil => rfl
  | cons m rest ih =>
    simp only [mark_existing_actas, List.map_cons]
    by_cases hin : locallyPresent down dept muni zona centro m = true
    · by_cases hne : m.needs_download ≠ some false
      · rw [if_pos hin, if_pos hne]
        simp only [markFn, hin, if_true]
        exact congrArg _ ih
      · rw [if_pos hin, if_neg hne]
        push_neg at hne
        have hm : ({ m with needs_download := some false } : MarkMesa) = m := by
          cases m with
          | mk n nd => simp at hne; simp [hne]
        simp only [markFn, hin, if_true, hm]
        exact congrArg _ ih
    · rw [if_neg hin]
      simp only [markFn, hin, Bool.false_eq_true, if_false]
      exact congrArg _ ih

/-- The reconciler's counters are the sizes of the corresponding record
classes. -/
theorem mark_existing_actas_stats (down : List String)
    (dept muni zona centro : String) (mesas : List MarkMesa) :
    (mark_existing_actas down dept muni zona centro mesas).2.total =
      mesas.length ∧
    (mark_existing_actas down dept muni zona centro mesas).2.marked =
      mesas.countP (fun m => locallyPresent down dept muni zona centro m &&
        !(m.needs_download == some false)) ∧
    (mark_existing_actas down dept muni zona centro mesas).2.already =
      mesas.countP (fun m => locallyPresent down dept muni zona centro m &&
        (m.needs_download == some false)) ∧
    (mark_existing_actas down dept muni zona centro mesas).2.leftTrue =
      mesas.countP
        (fun m => !locallyPresent down dept muni zona centro m) := by
  induction mesas with
  | nil => exact ⟨rfl, rfl, rfl, rfl⟩
  | cons m rest ih =>
    obtain ⟨iht, ihm, iha, ihl⟩ := ih
    simp only [mark_existing_actas, List.countP_cons, List.length_cons]
    by_cases hin : locallyPresent down dept muni zona centro m = true
    · by_cases hne : m.needs_download ≠ some false
      · rw [if_pos hin, if_pos hne]
        have hb : (m.needs_download == some false) = false := by
          simpa using hne
        refine ⟨by simp [iht], ?_, ?_, ?_⟩
        · simp [ihm, hin, hb]
        · simp [iha, hin, hb]
        · simp [ihl, hin]
      · rw [if_pos hin, if_neg hne]
        push_neg at hne
        have hb : (m.needs_download == some false) = true := by
          simpa using hne
        refine ⟨by simp [iht], ?_, ?_, ?_⟩
        · simp [ihm, hin, hb]
        · simp [iha, hin, hb]
        · simp [ihl, hin]
    · rw [if_neg hin]
      have hin' : locallyPresent down dept muni zona centro m = false := by
        simpa using hin
      refine ⟨by simp [iht], ?_, ?_, ?_⟩
      · simp [ihm, hin']
      · simp [iha, hin']
      · simp [ihl, hin']

/-- Marking a record twice is the same as marking it once. -/
theorem markFn_idem (down : List String) (dept muni zona centro : String)
    (x : MarkMesa) :
    markFn down dept muni zona centro (markFn down dept muni zona centro x) =
      markFn down dept muni zona centro x := by
  unfold markFn
  by_cases hin : locallyPresent down dept muni zona centro x = true
  · rw [if_pos hin]
    rw [if_pos (show locallyPresent down dept muni zona centro
      ⟨x.numero, some false⟩ = true from hin)]
  · rw [if_neg hin, if_neg hin]

/-- A marked record never counts as newly corrected. -/
theorem markFn_not_marked (down : List String)
    (dept muni zona centro : String) (x : MarkMesa) :
    (locallyPresent down dept muni zona centro
        (markFn down dept muni zona centro x) &&
      !((markFn down dept muni zona centro x).needs_download == some false)) =
      false := by
  unfold markFn
  by_cases hin : locallyPresent down dept muni zona centro x = true
  · rw [if_pos hin]
    simp
  · rw [if_neg hin]
    have hin' : locallyPresent down dept muni zona centro x = false := by
      simpa using hin
    simp [hin']

/-- C9: the reconciler forces `needs_download = false` for exactly the
records whose derived identifier is among the locally present acta files
and leaves every other record untouched; it counts the records it newly
corrects separately from those already false; and it is idempotent — run
on its own output it changes no record and reports zero newly corrected
entries. -/
theorem reconciler_marks_exactly (down : List String)
    (dept muni zona centro : String) (mesas : List MarkMesa) :
    (mark_existing_actas down dept muni zona centro mesas).1 =
      mesas.map (markFn down dept muni zona centro) ∧
    (∀ m : MarkMesa, markFn down dept muni zona centro m =
      if locallyPresent down dept muni zona centro m then
        { m with needs_download := some false }
      else m) ∧
    (mark_existing_actas down dept muni zona centro mesas).2.total =
      mesas.length ∧
    (mark_existing_actas down dept muni zona centro mesas).2.marked =
      mesas.countP (fun m => locallyPresent down dept muni zona centro m &&
        !(m.needs_download == some false)) ∧
    (mark_existing_actas down dept muni zona centro mesas).2.already =
      mesas.countP (fun m => locallyPresent down dept muni zona centro m &&
        (m.needs_download == some false)) ∧
    (mark_existing_actas down dept muni zona centro mesas).2.leftTrue =
      mesas.countP
        (fun m => !locallyPresent down dept muni zona centro m) ∧
    (mark_existing_actas down dept muni zona centro
        (mark_existing_actas down dept muni zona centro mesas).1).1 =
      (mark_existing_actas down dept muni zona centro mesas).1 ∧
    (mark_existing_actas down dept muni zona centro
        (mark_existing_actas down dept muni zona centro mesas).1).2.marked =
      0 := by
  obtain ⟨ht, hm, ha, hl⟩ :=
    mark_existing_actas_stats down dept muni zona centro mesas
  have hfst := mark_existing_actas_fst down dept muni zona centro mesas
  have hcomp : markFn down dept muni zona centro ∘
      markFn down dept muni zona centro = markFn down dept muni zona centro :=
    funext fun x => markFn_idem down dept muni zona centro x
  refine ⟨hfst, fun m => rfl, ht, hm, ha, hl, ?_, ?_⟩
  · rw [mark_existing_actas_fst, hfst, List.map_map, hcomp]
  · rw [(mark_existing_actas_stats down dept muni zona centro
      (mark_existing_actas down dept muni zona centro mesas).1).2.1, hfst,
      List.countP_map]
    refine List.countP_eq_zero.mpr ?_
    intro x _
    simp only [Function.comp]
    intro hcontra
    rw [markFn_not_marked down dept muni zona centro x] at hcontra
    cases hcontra

/-! ## Exit behaviour (download_actas.py `__main__`, monitor_actas.py)

`scan_and_download_actas` (lines 272-445 of `src/utils/download_actas.py`)
loads the registry (line 301, raising on a corrupt file), opens
`municipios_data.json` (line 321, raising when absent), and *returns
normally* after printing an error when the `mesas_data` directory is
missing (lines 334-336); per-table failures only increment counters. An
uncaught exception makes the interpreter exit 1; a normal return from
`__main__` exits 0. `monitor_actas.py --once` exits 0 iff the child
process exited 0 (lines 164-175). -/

/-- The setup conditions the run meets. -/
structure SetupEnv where
  registryReadable : Bool
  municipiosReadable : Bool
  mesasDataExists : Bool
  anyTableFailed : Bool
  deriving DecidableEq, Repr

/-- The process exit status of a `download_actas.py` run: 1 on an unhandled
setup exception (unreadable registry, missing `municipios_data.json`),
otherwise 0 — including both the missing-`mesas_data` early return and a
completed traversal regardless of per-table failures. -/
def scan_exit_code (env : SetupEnv) : Nat :=
  if env.registryReadable = false then 1
  else if env.municipiosReadable = false then 1
  else 0

/-- The `--once` mode of `monitor_actas.py`: `sys.exit(0 if success else
1)` where success means the child exited 0. -/
def monitor_once_exit (childCode : Nat) : Nat :=
  if childCode = 0 then 0 else 1

/-- C6 counterexample: with the registry and `municipios_data.json` readable
but the `mesas_data` directory missing, the run prints an error, returns
normally and exits 0 — not non-zero as the claim states; the monitoring
wrapper's single-run mode then also exits 0. -/
theorem missing_mesas_data_exits_zero :
    scan_exit_code ⟨true, true, false, false⟩ = 0 ∧
    monitor_once_exit (scan_exit_code ⟨true, true, false, false⟩) = 0 := by
  decide

/-- C6 amended: the run exits 0 whenever `scan_and_download_actas` returns —
on a completed traversal (even with individual per-table failures) and on
the missing-`mesas_data` early return, which only prints an error; it exits
non-zero exactly when an unhandled setup exception occurs (unreadable
registry file or missing `municipios_data.json`); and the monitor's
single-run mode exits 0 iff the synchronization run did. -/
theorem exit_code_spec (env : SetupEnv) :
    (scan_exit_code env = 0 ↔
      env.registryReadable = true ∧ env.municipiosReadable = true) ∧
    (env.mesasDataExists = false → env.registryReadable = true →
      env.municipiosReadable = true → scan_exit_code env = 0) ∧
    (∀ f : Bool, scan_exit_code ⟨env.registryReadable,
      env.municipiosReadable, env.mesasDataExists, f⟩ = scan_exit_code env) ∧
    (monitor_once_exit (scan_exit_code env) = 0 ↔ scan_exit_code env = 0) := by
  rcases env with ⟨r, mo, d, f⟩
  cases r <;> cases mo <;>
    simp [scan_exit_code, monitor_once_exit]
